import Mathlib

/-!
Verification development for the LifeTimeline history-ingestion pipeline.

The definitions below are shallow embeddings of the TypeScript sources:
  * `src/history/laneAssignment.ts`  — lane assignment engine (djb2 hash,
    interval collision, overflow handling);
  * `src/history/ingestHistory.ts`   — TSV parsing, the needs-enrichment
    predicate, the enrichment task body, the per-file sync step and the
    bounded-concurrency runner;
  * `src/db.ts`                      — the storage boundary
    (`sanitizeHistoricalEvent` whitelist stripping).

JavaScript machine integers appear only inside the djb2 hash, where the
`| 0` truncation is modelled by explicit `% 2 ^ 32` arithmetic on `Nat`
(two's-complement bit pattern) and `Math.abs` by a final signed fold.
-/

namespace LifeTimeline

/-! ### String primitives

The JS string operations used by the source (`split`, `trim`,
`toLowerCase`, `startsWith`, `slice`) are implemented structurally over
the character list of a `String`, so that every definition evaluates by
kernel reduction.  All inputs of interest are ASCII, where these agree
with the JS operations. -/

/-- Split a character list at every occurrence of `c` (JS
`split` with a one-character separator; `split` never returns an empty
array). -/
def splitCharAux (c : Char) : List Char → List (List Char)
  | [] => [[]]
  | ch :: rest =>
    let r := splitCharAux c rest
    if ch = c then [] :: r else (ch :: r.headD []) :: r.tail

/-- JS `s.split(c)` for a one-character separator `c`. -/
def splitChar (c : Char) (s : String) : List String :=
  (splitCharAux c s.data).map (fun l => String.mk l)

/-- JS `s.trim()` (ASCII whitespace). -/
def jsTrim (s : String) : String :=
  String.mk (((s.data.dropWhile Char.isWhitespace).reverse.dropWhile Char.isWhitespace).reverse)

/-- JS `s.toLowerCase()` (ASCII). -/
def jsToLower (s : String) : String :=
  String.mk (s.data.map Char.toLower)

/-- JS `s.startsWith(p)`. -/
def jsStartsWith (s p : String) : Bool :=
  p.data.isPrefixOf s.data

/-- JS `s.slice(0, n)`. -/
def jsTake (s : String) (n : Nat) : String :=
  String.mk (s.data.take n)

/-! ### JS date parsing

`new Date("YYYY-MM-DD").getTime()` yields UTC-midnight epoch milliseconds.
We parse the ten-character shape and convert through the Julian day number;
all divisions happen on non-negative operands, so the rounding convention is
irrelevant.  Strings that do not have the `YYYY-MM-DD` shape map to `0`
(the source only ever feeds regex-validated dates to this conversion). -/

/-- Milliseconds in a day (`MS_IN_DAY` in the source). -/
def MS_IN_DAY : Int := 86400000

/-- Digit value of a character, used by the date parser. -/
def digitVal (c : Char) : Nat := c.toNat - 48

/-- Days from the Unix epoch for a (year, month, day) civil date,
via the Julian day number (JDN of 1970-01-01 is 2440588). -/
def daysFromCivil (y m d : Nat) : Int :=
  let a : Nat := (14 - m) / 12
  let yp : Nat := y + 4800 - a
  let mp : Nat := m + 12 * a - 3
  let jdn : Int :=
    (d : Int) + ((153 * mp + 2) / 5 : Nat) + 365 * (yp : Int)
      + ((yp / 4 : Nat) : Int) - ((yp / 100 : Nat) : Int)
      + ((yp / 400 : Nat) : Int) - 32045
  jdn - 2440588

/-- Embedding of `new Date(s).getTime()` for `YYYY-MM-DD` strings. -/
def dateMs (s : String) : Int :=
  match s.data with
  | [y1, y2, y3, y4, h1, m1, m2, h2, d1, d2] =>
    if y1.isDigit && y2.isDigit && y3.isDigit && y4.isDigit
        && h1 = '-' && m1.isDigit && m2.isDigit && h2 = '-'
        && d1.isDigit && d2.isDigit then
      let y := digitVal y1 * 1000 + digitVal y2 * 100 + digitVal y3 * 10 + digitVal y4
      let m := digitVal m1 * 10 + digitVal m2
      let d := digitVal d1 * 10 + digitVal d2
      daysFromCivil y m d * MS_IN_DAY
    else 0
  | _ => 0

/-! ### Lane assignment engine (`src/history/laneAssignment.ts`)

`djb2Hash` computes, in JS, `h = ((h << 5) + h + str.charCodeAt(i)) | 0`
starting from 5381, then `Math.abs(h)`.  Working on the 32-bit
two's-complement bit pattern, each step is `(h * 33 + c) % 2^32`, and the
final absolute value of the signed reading is `b` when `b < 2^31` and
`2^32 - b` otherwise. -/

/-- Embedding of `djb2Hash` from `laneAssignment.ts` (result of `Math.abs`). -/
def djb2Hash (s : String) : Nat :=
  let b := s.data.foldl (fun h c => (h * 33 + c.toNat) % 4294967296) 5381
  if b < 2147483648 then b else 4294967296 - b

/-- Constant `MAX_LANES` from `laneAssignment.ts`. -/
def MAX_LANES : Nat := 3

/-- Constant `CANONICAL_WIDTH_DAYS` from `laneAssignment.ts`. -/
def CANONICAL_WIDTH_DAYS : Nat := 45

/-- Value `halfWMs = (CANONICAL_WIDTH_DAYS / 2) * MS_IN_DAY = 22.5 * 86400000`,
which is exact: 1944000000. -/
def halfWMs : Int := 1944000000

/-- Value `collidableLanes = MAX_LANES - 1`. -/
def collidableLanes : Nat := MAX_LANES - 1

/-- The central `HistoricalEvent` record (`src/history/types.ts`).
`previewBlob` carries no observable content, so it is modelled as
`Option Unit`; `updatedAt` is the ISO timestamp string. -/
structure HistoricalEvent where
  id : String
  date : String
  url : String
  title : String
  lang : String
  thumbnailUrl : Option String := none
  previewBlob : Option Unit := none
  tags : List String := []
  sourceFile : String := ""
  sourceLine : Nat := 0
  updatedAt : String := ""
  enrichVersion : Nat := 1
  summary : Option String := none
  importance : Option Nat := none
  ruUrl : Option String := none
deriving DecidableEq

/-- A placed `{start, end}` interval (field `end` is a Lean keyword, hence
`stop`). -/
structure Iv where
  start : Int
  stop : Int
deriving DecidableEq

/-- The mutable `laneIntervals` array of `assignHistoricalLanes`: only the
collidable lanes 0 and 1 are ever indexed. -/
structure LaneState where
  lane0 : List Iv := []
  lane1 : List Iv := []
deriving DecidableEq

/-- Reading `laneIntervals[laneIdx] ?? []`. -/
def LaneState.get (st : LaneState) (i : Nat) : List Iv :=
  if i = 0 then st.lane0 else if i = 1 then st.lane1 else []

/-- Pushing an interval onto `laneIntervals[laneIdx]`. -/
def LaneState.record (st : LaneState) (i : Nat) (iv : Iv) : LaneState :=
  if i = 0 then { st with lane0 := st.lane0 ++ [iv] }
  else if i = 1 then { st with lane1 := st.lane1 ++ [iv] }
  else st

/-- Test `intervals.some((iv) => rangeStart < iv.end && iv.start < rangeEnd)`. -/
def overlapsIn (ivs : List Iv) (rangeStart rangeEnd : Int) : Bool :=
  ivs.any (fun iv => rangeStart < iv.stop && iv.start < rangeEnd)

/-- The `freeLanes` computation: probe the collidable lanes in cyclic order
starting at `baseLane`, keeping those with no overlapping interval. -/
def freeLanesOf (st : LaneState) (baseLane : Nat) (rangeStart rangeEnd : Int) : List Nat :=
  (List.range collidableLanes).filterMap (fun offset =>
    let laneIdx := (baseLane + offset) % collidableLanes
    if overlapsIn (st.get laneIdx) rangeStart rangeEnd then none else some laneIdx)

/-- The `freeLanes.length > 1 ? freeLanes.reduce(...) : freeLanes[0] ?? 1`
selection: JS `reduce` folds from the head, keeping the earlier (probe-order)
lane on equal loads. -/
def chooseLane (st : LaneState) (freeLanes : List Nat) : Nat :=
  if freeLanes.length > 1 then
    freeLanes.tail.foldl
      (fun a b => if (st.get a).length ≤ (st.get b).length then a else b)
      (freeLanes.headD 1)
  else freeLanes.headD 1

/-- One iteration of the `for (const ev of sorted)` loop of
`assignHistoricalLanes` (`laneAssignment.ts`): compute the free collidable
lanes in probe order, pick one, record the interval; on total collision
fall back to lane 1 without recording the interval. -/
def laneStep (st : LaneState) (ev : HistoricalEvent) : LaneState × (HistoricalEvent × Nat) :=
  let evMs := dateMs ev.date
  let rangeStart := evMs - halfWMs
  let rangeEnd := evMs + halfWMs
  let freeLanes := freeLanesOf st (djb2Hash ev.id % collidableLanes) rangeStart rangeEnd
  let laneIdx := chooseLane st freeLanes
  if freeLanes.length > 0 then
    (st.record laneIdx ⟨rangeStart, rangeEnd⟩, (ev, laneIdx))
  else
    (st, (ev, 1))

/-- Comparator of the initial `[...events].sort(...)`: ascending date.
JS `Array.prototype.sort` is stable, which `List.insertionSort` with a
total preorder reproduces exactly. -/
def byDateLe (a b : HistoricalEvent) : Prop := dateMs a.date ≤ dateMs b.date

instance : DecidableRel byDateLe := fun a b => (inferInstance : Decidable (_ ≤ _))

/-- Embedding of `assignHistoricalLanes` from `laneAssignment.ts`: the
stored-at-ingest lane assignment engine.  Returns each event paired with
its `laneIndex`, in sorted order (the order the source pushes results). -/
def assignHistoricalLanes (events : List HistoricalEvent) : List (HistoricalEvent × Nat) :=
  let sorted := List.insertionSort byDateLe events
  (sorted.foldl
    (fun (acc : LaneState × List (HistoricalEvent × Nat)) ev =>
      let next := laneStep acc.1 ev
      (next.1, acc.2 ++ [next.2]))
    ({}, [])).2

/-! ### Row parser (`parseTsv` in `src/history/ingestHistory.ts`) -/

/-- A parsed TSV row (`ParsedRow` in the source). -/
structure ParsedRow where
  date : String
  url : String
  image : String
  title : String
  lang : String
  sourceLine : Nat
deriving DecidableEq

/-- Return value of `parseTsv`: `{ rows, errors }`. -/
structure ParseResult where
  rows : List ParsedRow
  errors : Nat
deriving DecidableEq

/-- JS `raw.split(/\r?\n/)`: split on LF, consuming one CR directly before
each LF. -/
def splitLinesJs (raw : String) : List String :=
  let parts := splitChar '\n' raw
  parts.dropLast.map (fun s =>
      if s.data.getLast? = some '\r' then String.mk s.data.dropLast else s)
    ++ [parts.getLastD ""]

/-- The test `DATE_REGEX = /^\d{4}-\d{2}-\d{2}$/` — a shape-only check,
no range validation of month or day. -/
def dateShapeTest (s : String) : Bool :=
  match s.data with
  | [y1, y2, y3, y4, h1, m1, m2, h2, d1, d2] =>
    y1.isDigit && y2.isDigit && y3.isDigit && y4.isDigit
      && h1 = '-' && m1.isDigit && m2.isDigit && h2 = '-'
      && d1.isDigit && d2.isDigit
  | _ => false

/-- JS `headers.indexOf(name)` with its `-1` sentinel. -/
def jsIndexOf (l : List String) (name : String) : Int :=
  match l.findIdx? (fun h => h == name) with
  | some i => (i : Int)
  | none => -1

/-- The header cells of the first line, trimmed and lower-cased
(`headerLine.split("\t").map((h) => h.trim().toLowerCase())`). -/
def tsvHeaders (raw : String) : List String :=
  (splitChar '\t' ((splitLinesJs raw).headD "")).map (fun h => jsToLower (jsTrim h))

/-- Body of the `for (let i = 1; i < lines.length; i++)` loop of `parseTsv`:
skip blank and `#` lines, reject rows failing the date-shape or the
`url.startsWith("http")` check (each rejection incrementing `errors` by
one), keep the rest.  `p.1` is the 0-based line index `i`. -/
def parseTsvLine (dateIdx urlIdx imageIdx titleIdx langIdx : Int)
    (acc : ParseResult) (p : Nat × String) : ParseResult :=
  let line := p.2
  let trimmed := jsTrim line
  if trimmed = "" then acc
  else if jsStartsWith trimmed "#" then acc
  else
    let cells := splitChar '\t' line
    let get := fun (col : Int) =>
      if 0 ≤ col ∧ col < (cells.length : Int) then jsTrim (cells.getD col.toNat "") else ""
    let date := get dateIdx
    let url := get urlIdx
    let image := if 0 ≤ imageIdx then get imageIdx else ""
    let title := if 0 ≤ titleIdx then get titleIdx else ""
    let lang := if 0 ≤ langIdx then get langIdx else "en"
    if ¬ dateShapeTest date then ⟨acc.rows, acc.errors + 1⟩
    else if ¬ jsStartsWith url "http" then ⟨acc.rows, acc.errors + 1⟩
    else ⟨acc.rows ++ [⟨date, url, image, title, lang, p.1 + 1⟩], acc.errors⟩

/-- Embedding of `parseTsv(raw, fileName)` from `ingestHistory.ts`.
`fileName` is used by the source only for diagnostics. -/
def parseTsv (raw fileName : String) : ParseResult :=
  let lines := splitLinesJs raw
  if lines.length < 2 then ⟨[], 0⟩
  else
    let headers := tsvHeaders raw
    let dateIdx := jsIndexOf headers "date"
    let urlIdx := jsIndexOf headers "url"
    let imageIdx := jsIndexOf headers "image"
    let titleIdx := jsIndexOf headers "title"
    let langIdx := jsIndexOf headers "lang"
    if dateIdx < 0 ∨ urlIdx < 0 then ⟨[], 1⟩
    else (lines.enum.drop 1).foldl
      (parseTsvLine dateIdx urlIdx imageIdx titleIdx langIdx) ⟨[], 0⟩

/-! ### Needs-enrichment predicate and the enrichment task body
(`src/history/ingestHistory.ts`) -/

/-- JS falsiness of an optional string: `undefined` and `""` are falsy. -/
def jsFalsy (o : Option String) : Bool :=
  match o with
  | none => true
  | some s => s = ""

/-- Embedding of `needsEnrich(existing, row)`. -/
def needsEnrich (existing : Option HistoricalEvent) (row : ParsedRow) : Bool :=
  match existing with
  | none => true
  | some ex =>
    let titleMatch := (if jsTrim row.title = "" then ex.title else jsTrim row.title) == ex.title
    let langMatch := ex.lang == row.lang
    let imageMatch := (jsTrim row.image == "") || (ex.thumbnailUrl == some (jsTrim row.image))
    !titleMatch || !langMatch || !imageMatch

/-- Result of `fetchWikiThumbnail` (`WikiPageData` in the source). -/
structure WikiPageData where
  title : String
  extract : Option String := none
  thumbnailUrl : Option String := none
  ruUrl : Option String := none
deriving DecidableEq

/-- The event built by the enrichment task body of
`runHistoryIngestInternal` (lines 229–285 of `ingestHistory.ts`) for a row
that needs enrichment.  External effects enter as parameters: `id` is the
SHA-1 of `date|url` (external crypto), `hasLocalPic` is the
`manifest[idStr] != null` lookup, `wiki` is the `fetchWikiThumbnail`
outcome (`none` for a non-Wikipedia url or a thrown fetch), `preview` the
outcome of the download-and-downsize step, `now` the current ISO
timestamp. -/
def firstRunEvent (row : ParsedRow) (id fileName now : String)
    (hasLocalPic : Bool) (wiki : Option WikiPageData) (preview : Option Unit) :
    HistoricalEvent :=
  let thumbnailUrl0 : Option String := if row.image = "" then none else some (jsTrim row.image)
  let title0 : Option String := if jsTrim row.title = "" then none else some (jsTrim row.title)
  let afterWiki :=
    match wiki with
    | some w =>
      (if jsFalsy title0 then some w.title else title0,
       w.extract.map (fun (e : String) => jsTake e 300),
       if jsFalsy thumbnailUrl0 && !hasLocalPic then w.thumbnailUrl else thumbnailUrl0,
       w.ruUrl)
    | none => (title0, none, thumbnailUrl0, none)
  let title1 := afterWiki.1
  let summary := afterWiki.2.1
  let thumbnailUrl1 := afterWiki.2.2.1
  let ruUrl := afterWiki.2.2.2
  let previewBlob0 : Option Unit :=
    if !(jsFalsy thumbnailUrl1) && !hasLocalPic then preview else none
  { id := id
    date := row.date
    url := row.url
    title := title1.getD row.url
    lang := row.lang
    thumbnailUrl := if hasLocalPic then none else thumbnailUrl1
    previewBlob := if hasLocalPic then none else previewBlob0
    tags := []
    sourceFile := fileName
    sourceLine := row.sourceLine
    updatedAt := now
    enrichVersion := 1
    summary := summary
    importance := some 3
    ruUrl := ruUrl }

/-! ### Storage boundary (`sanitizeHistoricalEvent` in `src/db.ts`)

Raw IndexedDB records are modelled as association lists from field name to
an arbitrary value type; a JS field that is absent or `undefined` is a
missing key. -/

/-- List `HISTORICAL_WHITELIST` from `src/db.ts` — note that `laneIndex` is
not in it. -/
def HISTORICAL_WHITELIST : List String :=
  ["id", "date", "url", "title", "lang", "thumbnailUrl", "previewBlob",
   "tags", "sourceFile", "sourceLine", "updatedAt", "enrichVersion",
   "summary", "importance", "ruUrl"]

/-- Embedding of `sanitizeHistoricalEvent(raw)`: copy exactly the
whitelisted fields that are present. -/
def sanitizeHistoricalEvent {α : Type} (raw : List (String × α)) : List (String × α) :=
  HISTORICAL_WHITELIST.filterMap (fun k =>
    match raw.lookup k with
    | some v => some (k, v)
    | none => none)

/-- The spread `{ ...ev, laneIndex }` used by the lane write-back: set a
field on a raw record. -/
def recordSet {α : Type} (raw : List (String × α)) (k : String) (v : α) :
    List (String × α) :=
  (k, v) :: raw

/-! ### Per-file sync step (`runHistoryIngestInternal`, lines 212–226)

The store is modelled as the list of records it holds; IndexedDB keys
records by `id`, so well-formed stores have pairwise distinct ids. -/

/-- The filter computing `toRemove`. -/
def syncToRemove (allFromDb : List HistoricalEvent) (fileName : String)
    (currentIds : List String) : List HistoricalEvent :=
  allFromDb.filter (fun e => e.sourceFile == fileName && !(currentIds.contains e.id))

/-- Embedding of `deleteHistoricalEventsByIds` from `src/db.ts`: batch delete by key. -/
def deleteHistoricalEventsByIds (store : List HistoricalEvent) (ids : List String) :
    List HistoricalEvent :=
  store.filter (fun e => !(ids.contains e.id))

/-- One file's sync step: compute `toRemove` against the snapshot and
delete those ids from the store. -/
def syncStep (db : List HistoricalEvent) (fileName : String)
    (currentIds : List String) : List HistoricalEvent :=
  deleteHistoricalEventsByIds db ((syncToRemove db fileName currentIds).map (fun e => e.id))

/-! ### Bounded-concurrency runner (`fetchWithLimit` in
`src/history/ingestHistory.ts`)

The runner spawns `min(limit, queue.length)` cooperative workers over a
shared index.  Each worker loops: atomically claim `i = idx++`, run task
`i` (an `await`, hence an interleaving point), store task `i`'s settled
outcome into `results[i]` (`undefined` on a thrown task), repeat; it
returns once `idx` reaches the queue length.  `Promise.all` resolves when
every worker has returned.

The model is a small-step transition system over an arbitrary interleaving
of those three worker actions.  A task's settled outcome is pre-recorded in
`outcomes` (`none` models a task that threw, whose result JS stores as
`undefined`); `results` is a function from position to
`none` (not yet written) or `some o` (written with outcome `o`). -/

/-- State of one cooperative worker of `fetchWithLimit`. -/
inductive Worker where
  /-- At the top of the `while` loop. -/
  | idle : Worker
  /-- Has claimed index `i` and is awaiting task `i`. -/
  | awaiting (i : Nat) : Worker
  /-- Returned from `run()` (the `while` guard failed). -/
  | done : Worker
deriving DecidableEq

/-- Global state of a `fetchWithLimit` execution. -/
structure RunnerState (α : Type) where
  /-- The shared `idx` counter. -/
  nextIdx : Nat
  /-- The `results` array: `none` = slot not yet written. -/
  results : Nat → Option (Option α)
  /-- Worker `w`'s state; workers beyond the spawned count are `done`. -/
  workers : Nat → Worker

/-- Pointwise function update used for `results` and `workers`. -/
def updFn {β : Type} (f : Nat → β) (i : Nat) (b : β) : Nat → β :=
  fun j => if j = i then b else f j

/-- Initial state: `idx = 0`, no result written,
`min(limit, queue.length)` idle workers. -/
def runnerInit (α : Type) (limit n : Nat) : RunnerState α :=
  { nextIdx := 0
    results := fun _ => none
    workers := fun w => if w < min limit n then .idle else .done }

/-- One interleaving step of `fetchWithLimit` with settled task outcomes
`outcomes`: an idle worker claims the next index (or returns when the
queue is exhausted), and a worker whose awaited task has settled writes
the task's outcome into its claimed slot. -/
inductive RunnerStep (α : Type) (outcomes : List (Option α)) :
    RunnerState α → RunnerState α → Prop where
  | claim (s : RunnerState α) (w : Nat)
      (hw : s.workers w = .idle) (h : s.nextIdx < outcomes.length) :
      RunnerStep α outcomes s
        { nextIdx := s.nextIdx + 1
          results := s.results
          workers := updFn s.workers w (.awaiting s.nextIdx) }
  | finish (s : RunnerState α) (w : Nat)
      (hw : s.workers w = .idle) (h : ¬ s.nextIdx < outcomes.length) :
      RunnerStep α outcomes s
        { nextIdx := s.nextIdx
          results := s.results
          workers := updFn s.workers w .done }
  | write (s : RunnerState α) (w i : Nat)
      (hw : s.workers w = .awaiting i) :
      RunnerStep α outcomes s
        { nextIdx := s.nextIdx
          results := updFn s.results i (some (outcomes.getD i none))
          workers := updFn s.workers w .idle }

/-- The `Promise.all` has resolved: every worker has returned. -/
def RunnerDone {α : Type} (s : RunnerState α) : Prop :=
  ∀ w, s.workers w = Worker.done

/-- Reachability along runner steps. -/
def RunnerReaches (α : Type) (outcomes : List (Option α)) :
    RunnerState α → RunnerState α → Prop :=
  Relation.ReflTransGen (RunnerStep α outcomes)

/-- Some worker has claimed slot `i` and not yet written it. -/
def Awaits {α : Type} (s : RunnerState α) (i : Nat) : Prop :=
  ∃ w, s.workers w = Worker.awaiting i

/-- Inductive invariant of the runner: claims are below `nextIdx` and
bounded by the queue, each claimed-but-unwritten slot is awaited by exactly
one worker, every claimed slot no longer awaited holds its task's settled
outcome, unclaimed slots are unwritten, and workers only all return after
the whole queue has been claimed. -/
def RunnerInv {α : Type} (outcomes : List (Option α)) (s : RunnerState α) : Prop :=
  (∀ i, s.nextIdx ≤ i → s.results i = none)
  ∧ s.nextIdx ≤ outcomes.length
  ∧ (∀ w i, s.workers w = Worker.awaiting i → i < s.nextIdx ∧ s.results i = none)
  ∧ (∀ w v i, s.workers w = Worker.awaiting i → s.workers v = Worker.awaiting i → w = v)
  ∧ (∀ i, i < s.nextIdx → ¬ Awaits s i → s.results i = some (outcomes.getD i none))
  ∧ (outcomes.length ≤ s.nextIdx ∨ ∃ w, s.workers w ≠ Worker.done)

/-! ### Concrete fixtures used by counterexamples and witnesses -/

/-- Event with id `"a"` (djb2 base lane 0). -/
def evA : HistoricalEvent :=
  { id := "a", date := "2020-01-01", url := "https://en.wikipedia.org/wiki/A",
    title := "A", lang := "en" }

/-- Event with id `"b"` (djb2 base lane 1), same date as `evA`. -/
def evB : HistoricalEvent :=
  { evA with id := "b", url := "https://en.wikipedia.org/wiki/B", title := "B" }

/-- Event with id `"c"` (djb2 base lane 0), same date as `evA`. -/
def evC : HistoricalEvent :=
  { evA with id := "c", url := "https://en.wikipedia.org/wiki/C", title := "C" }

/-- Event with id `"d"` and a date far from `evA`. -/
def evD : HistoricalEvent :=
  { evA with
      id := "d"
      date := "2021-06-15"
      url := "https://en.wikipedia.org/wiki/D"
      title := "D" }

/-- A parsed row supplying a non-blank `image`. -/
def rowImg : ParsedRow :=
  { date := "2020-01-01", url := "https://en.wikipedia.org/wiki/X",
    image := "https://img.example/x.jpg", title := "T", lang := "en",
    sourceLine := 2 }

/-- The same row without an `image` value. -/
def rowPlain : ParsedRow := { rowImg with image := "" }

/-- A two-event store drawn from two different source files. -/
def dbAB : List HistoricalEvent :=
  [{ evA with sourceFile := "a.tsv" }, { evB with sourceFile := "b.tsv" }]

/-! ## Theorems -/

/-- Copying only whitelisted keys never yields a key outside the list. -/
theorem lookup_whitelistCopy_eq_none {α : Type} (ks : List String)
    (raw : List (String × α)) (k : String) (hk : k ∉ ks) :
    (ks.filterMap (fun j =>
      match raw.lookup j with
      | some v => some (j, v)
      | none => none)).lookup k = none := by
  induction ks with
  | nil => rfl
  | cons j ks ih =>
    have hne : k ≠ j := fun h => hk (h ▸ List.mem_cons_self j ks)
    have hks : k ∉ ks := fun h => hk (List.mem_cons_of_mem _ h)
    simp only [List.filterMap_cons]
    cases raw.lookup j with
    | none => exact ih hks
    | some v =>
      simp only [List.lookup_cons]
      rw [show (k == j) = false from by simpa using hne]
      exact ih hks

/-- C1: FALSIFIED (code bug).  The ingestion run's lane write-back upserts
`{ ...ev, laneIndex }`, but `HISTORICAL_WHITELIST` in `src/db.ts` does not
contain `"laneIndex"`, so `sanitizeHistoricalEvent` — applied by
`bulkUpsertHistoricalEvents` on every write (and again on every read) —
strips the field: for every raw record and every lane value, the persisted
record has no `laneIndex` key, hence no subsequent read can return the
assigned lane.  This contradicts the code's own comments ("Assign lanes
once for ALL events and persist — never recalculate at display time"). -/
theorem c1_laneIndex_never_persisted {α : Type} (raw : List (String × α)) (v : α) :
    (sanitizeHistoricalEvent (recordSet raw "laneIndex" v)).lookup "laneIndex" = none :=
  lookup_whitelistCopy_eq_none HISTORICAL_WHITELIST _ _ (by decide)

/-- C6: CONFIRMED.  `needsEnrich(existing, row)` returns true iff no stored
event exists, or the row's trimmed title is non-blank and differs from the
stored title, or the langs differ, or the row's trimmed image is non-blank
and differs from the stored `thumbnailUrl`. -/
theorem c6_needsEnrich_characterisation (ex : Option HistoricalEvent) (row : ParsedRow) :
    needsEnrich ex row = true ↔
      (ex = none
        ∨ ∃ e, ex = some e ∧
            ((jsTrim row.title ≠ "" ∧ jsTrim row.title ≠ e.title)
              ∨ e.lang ≠ row.lang
              ∨ (jsTrim row.image ≠ "" ∧ e.thumbnailUrl ≠ some (jsTrim row.image)))) := by
  cases ex with
  | none => simp [needsEnrich]
  | some e =>
    simp only [needsEnrich, Bool.or_eq_true, Bool.not_eq_true', beq_eq_false_iff_ne,
      Bool.or_eq_false_iff, reduceCtorEq, false_or, Option.some.injEq, exists_eq_left']
    by_cases h0 : jsTrim row.title = "" <;> simp [h0, or_assoc]

/-- C2: FALSIFIED as stated.  Three events sharing the date 2020-01-01
whose first two occupy both collidable lanes give the third
`laneIndex = 1`, not the overflow lane `MAX_LANES - 1 = 2`:
`laneAssignment.ts` deliberately falls back to lane 1
("Exception: when overflow would be used, put in lane 1 with overlap
instead (never lane 2)"). -/
theorem c2_counterexample :
    (assignHistoricalLanes [evA, evB, evC]).map (fun p => (p.1.id, p.2))
        = [("a", 0), ("b", 1), ("c", 1)]
      ∧ ¬ ((assignHistoricalLanes [evA, evB, evC]).getD 2 (evA, 0)).2
        = MAX_LANES - 1 := by
  decide

/-- C2 (amended): when an event's candidate interval overlaps an existing
interval in every collidable lane, `laneStep` assigns lane 1 — not the
overflow lane 2 — and leaves the collision-tracking state unchanged (the
interval is not recorded), regardless of the event's hash value. -/
theorem c2_total_collision_falls_back_to_lane1 (st : LaneState) (ev : HistoricalEvent)
    (h : ∀ l, l < collidableLanes →
      overlapsIn (st.get l) (dateMs ev.date - halfWMs) (dateMs ev.date + halfWMs) = true) :
    laneStep st ev = (st, (ev, 1)) := by
  have hfl : freeLanesOf st (djb2Hash ev.id % collidableLanes)
      (dateMs ev.date - halfWMs) (dateMs ev.date + halfWMs) = [] := by
    rw [freeLanesOf, List.filterMap_eq_nil_iff]
    intro o _
    have hlt : (djb2Hash ev.id + o) % collidableLanes < collidableLanes :=
      Nat.mod_lt _ (by decide)
    simp [Nat.mod_add_mod, h _ hlt]
  simp [laneStep, hfl]

/-- Witness for `c2_total_collision_falls_back_to_lane1`: a state whose two
collidable lanes both hold an interval overlapping `evC`'s candidate
range. -/
theorem c2_total_collision_witness :
    laneStep
        ⟨[⟨dateMs "2020-01-01" - halfWMs, dateMs "2020-01-01" + halfWMs⟩],
         [⟨dateMs "2020-01-01" - halfWMs, dateMs "2020-01-01" + halfWMs⟩]⟩ evC
      = (⟨[⟨dateMs "2020-01-01" - halfWMs, dateMs "2020-01-01" + halfWMs⟩],
          [⟨dateMs "2020-01-01" - halfWMs, dateMs "2020-01-01" + halfWMs⟩]⟩,
         (evC, 1)) :=
  c2_total_collision_falls_back_to_lane1 _ _ (by decide)

/-- C5: FALSIFIED as stated.  A data row with `date = "2024-13-40"` and a
valid url is NOT dropped: the date check is the shape-only regex
`^\d{4}-\d{2}-\d{2}$`, which `"2024-13-40"` matches, so the row is kept
and the error count stays 0 (the claim asserts it is dropped with error
count 1). -/
theorem c5_counterexample :
    parseTsv "date\turl\n2024-13-40\thttp://example.org" "f.tsv"
      = ⟨[{ date := "2024-13-40", url := "http://example.org", image := "",
            title := "", lang := "en", sourceLine := 2 }], 0⟩ := by
  decide

/-- C5 (amended): the parser rejection is shape-only.  A data row with
`url = "not-a-url"` is dropped and increments the error count by exactly
one, while a data row with `date = "2024-13-40"` and an http url passes
the `\d{4}-\d{2}-\d{2}` date-shape check and is kept. -/
theorem c5_amended_parser_rejection :
    parseTsv "date\turl\n2024-01-01\tnot-a-url\n2024-13-40\thttp://e" "f.tsv"
      = ⟨[{ date := "2024-13-40", url := "http://e", image := "", title := "",
            lang := "en", sourceLine := 3 }], 1⟩
    ∧ dateShapeTest "2024-13-40" = true
    ∧ jsStartsWith "not-a-url" "http" = false := by
  decide

/-- C9: FALSIFIED as stated.  An input text with no newline — whose single
line is the header and names neither a `date` nor a `url` column — hits the
`lines.length < 2` early return and yields error count 0, not 1. -/
theorem c9_counterexample :
    ("date" ∉ tsvHeaders "nodate" ∧ "url" ∉ tsvHeaders "nodate")
      ∧ parseTsv "nodate" "f.tsv" = ⟨[], 0⟩ := by
  decide

/-- C9 (amended): for every input text splitting into at least two lines
whose header names no `date` column or no `url` column, `parseTsv` returns
zero rows and an error count of exactly 1, without failing. -/
theorem c9_missing_columns_file_level_error (raw f : String)
    (h2 : 2 ≤ (splitLinesJs raw).length)
    (hmiss : "date" ∉ tsvHeaders raw ∨ "url" ∉ tsvHeaders raw) :
    parseTsv raw f = ⟨[], 1⟩ := by
  have hidx : jsIndexOf (tsvHeaders raw) "date" < 0 ∨ jsIndexOf (tsvHeaders raw) "url" < 0 := by
    rcases hmiss with h | h
    · left
      have hnone : (tsvHeaders raw).findIdx? (fun x => x == "date") = none :=
        List.findIdx?_eq_none_iff.mpr
          (fun x hx => beq_eq_false_iff_ne.mpr (fun hxe : x = "date" => h (hxe ▸ hx)))
      simp [jsIndexOf, hnone]
    · right
      have hnone : (tsvHeaders raw).findIdx? (fun x => x == "url") = none :=
        List.findIdx?_eq_none_iff.mpr
          (fun x hx => beq_eq_false_iff_ne.mpr (fun hxe : x = "url" => h (hxe ▸ hx)))
      simp [jsIndexOf, hnone]
  unfold parseTsv
  rw [if_neg (by omega), if_pos hidx]

/-- Witness for `c9_missing_columns_file_level_error`. -/
theorem c9_missing_columns_witness :
    parseTsv "x\ty\n1\t2" "f.tsv" = ⟨[], 1⟩ :=
  c9_missing_columns_file_level_error "x\ty\n1\t2" "f.tsv" (by decide)
    (Or.inl (by decide))

/-- Membership characterisation of one file's sync step on a store with
pairwise distinct ids (IndexedDB keys records by `id`). -/
theorem mem_syncStep_iff (db : List HistoricalEvent) (f : String) (ids : List String)
    (hnd : (db.map (fun e => e.id)).Nodup) (e : HistoricalEvent) :
    e ∈ syncStep db f ids ↔ e ∈ db ∧ ¬ (e.sourceFile = f ∧ e.id ∉ ids) := by
  have hmem2 : ∀ x : HistoricalEvent,
      x ∈ syncToRemove db f ids ↔ x ∈ db ∧ (x.sourceFile = f ∧ x.id ∉ ids) := by
    intro x
    simp [syncToRemove, List.mem_filter]
  rw [syncStep, deleteHistoricalEventsByIds]
  constructor
  · intro h
    obtain ⟨h1, h2⟩ := List.mem_filter.mp h
    rw [Bool.not_eq_true'] at h2
    refine ⟨h1, ?_⟩
    rintro ⟨hsf, hid⟩
    have hin : e.id ∈ (syncToRemove db f ids).map (fun x => x.id) :=
      List.mem_map_of_mem _ ((hmem2 e).mpr ⟨h1, hsf, hid⟩)
    have hc : ((syncToRemove db f ids).map (fun x => x.id)).contains e.id = true :=
      List.elem_iff.mpr hin
    rw [hc] at h2
    cases h2
  · rintro ⟨h1, h2⟩
    refine List.mem_filter.mpr ⟨h1, ?_⟩
    rw [Bool.not_eq_true']
    cases hb : ((syncToRemove db f ids).map (fun x => x.id)).contains e.id with
    | false => rfl
    | true =>
      exfalso
      obtain ⟨x, hx, hxe⟩ := List.mem_map.mp (List.elem_iff.mp hb)
      obtain ⟨hxdb, hxsf, hxid⟩ := (hmem2 x).mp hx
      obtain rfl : x = e := List.inj_on_of_nodup_map hnd hxdb h1 hxe
      exact h2 ⟨hxsf, hxid⟩

/-- C7: CONFIRMED.  On a store with pairwise distinct ids, one file's sync
step deletes exactly the stored events whose `sourceFile` equals the file
and whose id is absent from the file's current id set; every stored event
with a different `sourceFile` survives unchanged. -/
theorem c7_sync_removes_exactly (db : List HistoricalEvent) (f : String)
    (ids : List String) (hnd : (db.map (fun e => e.id)).Nodup) :
    (∀ e, e ∈ syncStep db f ids ↔ e ∈ db ∧ ¬ (e.sourceFile = f ∧ e.id ∉ ids))
    ∧ (∀ e, e ∈ db → e.sourceFile ≠ f → e ∈ syncStep db f ids) :=
  ⟨fun e => mem_syncStep_iff db f ids hnd e,
   fun e he hf => (mem_syncStep_iff db f ids hnd e).mpr
     ⟨he, fun hc => hf hc.1⟩⟩

/-- Witness for `c7_sync_removes_exactly`: in a two-file store, syncing
`a.tsv` with an empty current id set keeps the `b.tsv` event. -/
theorem c7_sync_removes_exactly_witness :
    { evB with sourceFile := "b.tsv" } ∈ syncStep dbAB "a.tsv" [] :=
  (c7_sync_removes_exactly dbAB "a.tsv" [] (by decide)).2
    { evB with sourceFile := "b.tsv" } (by decide) (by decide)

/-- C10: CONFIRMED.  When a source file's content parses to zero rows
(e.g. its header no longer names the required columns), the file's current
id set is empty, so the sync step deletes every stored event whose
`sourceFile` equals that file and keeps exactly the others.  `idFun`
abstracts the SHA-1 id computation applied to each parsed row. -/
theorem c10_zero_rows_deletes_whole_file (raw f : String)
    (idFun : ParsedRow → String) (db : List HistoricalEvent)
    (hnd : (db.map (fun e => e.id)).Nodup)
    (hz : (parseTsv raw f).rows = []) :
    ∀ e, e ∈ syncStep db f (((parseTsv raw f).rows).map idFun) ↔
      e ∈ db ∧ e.sourceFile ≠ f := by
  intro e
  rw [hz, List.map_nil, mem_syncStep_iff db f [] hnd e]
  simp

/-- Witness for `c10_zero_rows_deletes_whole_file`: a file whose header
lost its columns wipes that file's events and keeps the rest. -/
theorem c10_zero_rows_witness :
    ({ evB with sourceFile := "b.tsv" }
        ∈ syncStep dbAB "a.tsv" (((parseTsv "x\ty\n1\t2" "a.tsv").rows).map (fun _ => "z")))
      ↔ ({ evB with sourceFile := "b.tsv" } ∈ dbAB
          ∧ ({ evB with sourceFile := "b.tsv" } : HistoricalEvent).sourceFile ≠ "a.tsv") :=
  c10_zero_rows_deletes_whole_file "x\ty\n1\t2" "a.tsv" (fun _ => "z") dbAB
    (by decide) (by decide) { evB with sourceFile := "b.tsv" }

/-- C4: FALSIFIED as stated.  Re-running ingestion over unchanged sources
is not always enrichment-free: a row supplying a non-blank `image` whose
`date|url` key has a bundled local picture gets its stored `thumbnailUrl`
cleared (`if (hasLocalPic) thumbnailUrl = undefined`), so on the second
run `needsEnrich` sees the row's image differ from the stored
`thumbnailUrl` and returns true again. -/
theorem c4_counterexample :
    needsEnrich
        (some (firstRunEvent rowImg "id0" "events.tsv" "2024-01-01T00:00:00Z"
          true none none))
        rowImg = true := by
  decide

/-- C4 (amended): for every row that does not combine a non-blank image
with a local-manifest picture, the event stored by the first run matches
the row, so the second run's `needsEnrich` returns false — re-ingestion
of such rows performs no enrichment call.  Quantified over every
enrichment environment (wiki outcome, preview outcome, timestamps). -/
theorem c4_unchanged_row_needs_no_enrich (row : ParsedRow) (id f now : String)
    (hasLocalPic : Bool) (wiki : Option WikiPageData) (preview : Option Unit)
    (h : jsTrim row.image = "" ∨ hasLocalPic = false) :
    needsEnrich (some (firstRunEvent row id f now hasLocalPic wiki preview)) row
      = false := by
  by_cases ht : jsTrim row.title = "" <;> by_cases hi : jsTrim row.image = ""
  all_goals try have h0 : ¬ row.image = "" := fun he => hi (by rw [he]; rfl)
  all_goals cases wiki <;> simp_all [needsEnrich, firstRunEvent, jsFalsy]

/-- Witness for `c4_unchanged_row_needs_no_enrich`. -/
theorem c4_unchanged_row_witness :
    needsEnrich
        (some (firstRunEvent rowPlain "id0" "events.tsv" "t0" false none none))
        rowPlain = false :=
  c4_unchanged_row_needs_no_enrich rowPlain "id0" "events.tsv" "t0" false none none
    (Or.inr rfl)

/-- C3: FALSIFIED as stated.  The algorithm's sort is stable, breaking
date ties by input order, so permuting two equal-date events whose hashes
share a base lane swaps their lanes: with ids `"a"` and `"c"` (both base
lane 0) on the same date, the input order `[a, c]` gives `a` lane 0 while
`[c, a]` gives `a` lane 1. -/
theorem c3_counterexample :
    ((assignHistoricalLanes [evA, evC]).map (fun p => (p.1.id, p.2))
        = [("a", 0), ("c", 1)])
    ∧ ((assignHistoricalLanes [evC, evA]).map (fun p => (p.1.id, p.2))
        = [("c", 0), ("a", 1)]) := by
  decide

/-- A `byDateLe`-sorted list with pairwise distinct date keys is strictly
sorted by date. -/
theorem sorted_byDateLe_strict (l : List HistoricalEvent)
    (hs : List.Sorted byDateLe l)
    (hn : (l.map (fun e => dateMs e.date)).Nodup) :
    List.Pairwise (fun a b => dateMs a.date < dateMs b.date) l := by
  have hne : List.Pairwise (fun a b : HistoricalEvent => dateMs a.date ≠ dateMs b.date) l :=
    List.pairwise_map.mp hn
  exact (hs.and hne).imp (fun hab => lt_of_le_of_ne hab.1 hab.2)

/-- C3 (amended): lane assignment is invariant under input permutation
provided the events' dates are pairwise distinct (equivalently, under any
permutation preserving the relative order of equal-date events): the
stable sort then yields the same sequence, hence identical lanes for every
event. -/
theorem c3_perm_invariant_distinct_dates (l₁ l₂ : List HistoricalEvent)
    (hp : l₁.Perm l₂)
    (hnd : (l₁.map (fun e => dateMs e.date)).Nodup) :
    assignHistoricalLanes l₁ = assignHistoricalLanes l₂ := by
  haveI : IsTotal HistoricalEvent byDateLe := ⟨fun a b => Int.le_total _ _⟩
  haveI : IsTrans HistoricalEvent byDateLe := ⟨fun a b c => Int.le_trans⟩
  haveI : IsAntisymm HistoricalEvent (fun a b => dateMs a.date < dateMs b.date) :=
    ⟨fun a b h1 h2 => absurd (lt_trans h1 h2) (lt_irrefl _)⟩
  have hnd₁ : ((List.insertionSort byDateLe l₁).map (fun e => dateMs e.date)).Nodup :=
    (((List.perm_insertionSort byDateLe l₁).map _).nodup_iff).mpr hnd
  have hnd₂ : ((List.insertionSort byDateLe l₂).map (fun e => dateMs e.date)).Nodup :=
    (((List.perm_insertionSort byDateLe l₂).map _).nodup_iff).mpr ((hp.map _).nodup_iff.mp hnd)
  have hsort : List.insertionSort byDateLe l₁ = List.insertionSort byDateLe l₂ :=
    List.eq_of_perm_of_sorted
      ((List.perm_insertionSort byDateLe l₁).trans
        (hp.trans (List.perm_insertionSort byDateLe l₂).symm))
      (sorted_byDateLe_strict _ (List.sorted_insertionSort byDateLe l₁) hnd₁)
      (sorted_byDateLe_strict _ (List.sorted_insertionSort byDateLe l₂) hnd₂)
  rw [assignHistoricalLanes, assignHistoricalLanes, hsort]

/-- Witness for `c3_perm_invariant_distinct_dates`: two events with
distinct dates, permuted. -/
theorem c3_perm_invariant_witness :
    assignHistoricalLanes [evA, evD] = assignHistoricalLanes [evD, evA] :=
  c3_perm_invariant_distinct_dates [evA, evD] [evD, evA]
    (List.Perm.swap evD evA []) (by decide)

/-- Updating at `i` reads back the written value at `i`. -/
theorem updFn_self {β : Type} (f : Nat → β) (i : Nat) (b : β) : updFn f i b i = b :=
  if_pos rfl

/-- Updating at `i` leaves every other index unchanged. -/
theorem updFn_ne {β : Type} (f : Nat → β) (i : Nat) (b : β) {j : Nat} (h : j ≠ i) :
    updFn f i b j = f j :=
  if_neg h

/-- The runner invariant holds initially. -/
theorem runnerInv_init {α : Type} (outcomes : List (Option α)) (limit : Nat)
    (hl : 1 ≤ limit) :
    RunnerInv outcomes (runnerInit α limit outcomes.length) := by
  refine ⟨fun i _ => rfl, Nat.zero_le _, ?_, ?_, ?_, ?_⟩
  · intro w i hw
    dsimp only [runnerInit] at hw
    split at hw <;> cases hw
  · intro w v i hw hv
    dsimp only [runnerInit] at hw
    split at hw <;> cases hw
  · intro i hi
    exact absurd hi (Nat.not_lt_zero i)
  · by_cases hn : outcomes.length = 0
    · left
      dsimp only [runnerInit]
      omega
    · refine Or.inr ⟨0, ?_⟩
      dsimp only [runnerInit]
      rw [if_pos (by omega)]
      simp

/-- The runner invariant is preserved by every interleaving step. -/
theorem runnerInv_step {α : Type} (outcomes : List (Option α))
    {s t : RunnerState α} (hinv : RunnerInv outcomes s)
    (hstep : RunnerStep α outcomes s t) : RunnerInv outcomes t := by
  obtain ⟨h1, h2, h3, h4, h5, h6⟩ := hinv
  cases hstep with
  | claim w hw h =>
    refine ⟨fun i hi => h1 i (Nat.le_of_succ_le hi), h, ?_, ?_, ?_, ?_⟩
    · intro v i hv
      dsimp only at hv ⊢
      by_cases hvw : v = w
      · subst hvw
        rw [updFn_self] at hv
        injection hv with hh
        subst hh
        exact ⟨Nat.lt_succ_self _, h1 _ (le_refl _)⟩
      · rw [updFn_ne _ _ _ hvw] at hv
        obtain ⟨hlt, hres⟩ := h3 v i hv
        exact ⟨by omega, hres⟩
    · intro v u i hv hu
      dsimp only at hv hu
      by_cases hvw : v = w <;> by_cases huw : u = w
      · subst hvw huw; rfl
      · subst hvw
        rw [updFn_self] at hv
        rw [updFn_ne _ _ _ huw] at hu
        injection hv with hh
        subst hh
        exact absurd (h3 u _ hu).1 (lt_irrefl _)
      · subst huw
        rw [updFn_self] at hu
        rw [updFn_ne _ _ _ hvw] at hv
        injection hu with hh
        subst hh
        exact absurd (h3 v _ hv).1 (lt_irrefl _)
      · rw [updFn_ne _ _ _ hvw] at hv
        rw [updFn_ne _ _ _ huw] at hu
        exact h4 v u i hv hu
    · intro i hi hnA
      have hi2 : i < s.nextIdx + 1 := hi
      by_cases hieq : i = s.nextIdx
      · refine absurd ⟨w, ?_⟩ hnA
        show updFn s.workers w (Worker.awaiting s.nextIdx) w = Worker.awaiting i
        rw [updFn_self, hieq]
      · refine h5 i (by omega) ?_
        rintro ⟨v, hv⟩
        have hvw : v ≠ w := fun hvw => by rw [hvw, hw] at hv; cases hv
        refine hnA ⟨v, ?_⟩
        show updFn s.workers w (Worker.awaiting s.nextIdx) v = Worker.awaiting i
        rw [updFn_ne _ _ _ hvw]
        exact hv
    · exact Or.inr ⟨w, by dsimp only; rw [updFn_self]; simp⟩
  | finish w hw h =>
    refine ⟨h1, h2, ?_, ?_, ?_, Or.inl (by dsimp only; omega)⟩
    · intro v i hv
      dsimp only at hv
      have hvw : v ≠ w := fun hvw => by
        rw [hvw, updFn_self] at hv; cases hv
      rw [updFn_ne _ _ _ hvw] at hv
      exact h3 v i hv
    · intro v u i hv hu
      dsimp only at hv hu
      have hvw : v ≠ w := fun hvw => by
        rw [hvw, updFn_self] at hv; cases hv
      have huw : u ≠ w := fun huw => by
        rw [huw, updFn_self] at hu; cases hu
      rw [updFn_ne _ _ _ hvw] at hv
      rw [updFn_ne _ _ _ huw] at hu
      exact h4 v u i hv hu
    · intro i hi hnA
      refine h5 i hi ?_
      rintro ⟨v, hv⟩
      have hvw : v ≠ w := fun hvw => by rw [hvw, hw] at hv; cases hv
      refine hnA ⟨v, ?_⟩
      show updFn s.workers w Worker.done v = Worker.awaiting i
      rw [updFn_ne _ _ _ hvw]
      exact hv
  | write w i hw =>
    obtain ⟨hilt, hires⟩ := h3 w i hw
    refine ⟨?_, h2, ?_, ?_, ?_, ?_⟩
    · intro j hj
      dsimp only at hj ⊢
      rw [updFn_ne _ _ _ (fun hji : j = i => by omega)]
      exact h1 j hj
    · intro v j hv
      dsimp only at hv ⊢
      have hvw : v ≠ w := fun hvw => by
        rw [hvw, updFn_self] at hv; cases hv
      rw [updFn_ne _ _ _ hvw] at hv
      obtain ⟨hjlt, hjres⟩ := h3 v j hv
      have hji : j ≠ i := fun hji => by
        subst hji
        exact hvw (h4 v w j hv hw)
      rw [updFn_ne _ _ _ hji]
      exact ⟨hjlt, hjres⟩
    · intro v u j hv hu
      dsimp only at hv hu
      have hvw : v ≠ w := fun hvw => by
        rw [hvw, updFn_self] at hv; cases hv
      have huw : u ≠ w := fun huw => by
        rw [huw, updFn_self] at hu; cases hu
      rw [updFn_ne _ _ _ hvw] at hv
      rw [updFn_ne _ _ _ huw] at hu
      exact h4 v u j hv hu
    · intro j hj hnA
      dsimp only at hj hnA ⊢
      by_cases hji : j = i
      · subst hji
        rw [updFn_self]
      · rw [updFn_ne _ _ _ hji]
        refine h5 j hj ?_
        rintro ⟨v, hv⟩
        have hvw : v ≠ w := fun hvw => by
          rw [hvw, hw] at hv
          injection hv with hh
          exact hji hh.symm
        refine hnA ⟨v, ?_⟩
        show updFn s.workers w Worker.idle v = Worker.awaiting j
        rw [updFn_ne _ _ _ hvw]
        exact hv
    · exact Or.inr ⟨w, by dsimp only; rw [updFn_self]; simp⟩

/-- The runner invariant holds in every reachable state. -/
theorem runnerInv_reaches {α : Type} (outcomes : List (Option α)) (limit : Nat)
    (hl : 1 ≤ limit) (s : RunnerState α)
    (hr : RunnerReaches α outcomes (runnerInit α limit outcomes.length) s) :
    RunnerInv outcomes s := by
  induction hr with
  | refl => exact runnerInv_init outcomes limit hl
  | tail hab hbc ih => exact runnerInv_step outcomes ih hbc

/-- C8: CONFIRMED.  For every task queue, every concurrency ceiling
`limit ≥ 1` and every cooperative interleaving of `fetchWithLimit`'s
workers that reaches a resolved state (`RunnerDone`), slot `i` of the
results holds exactly task `i`'s settled outcome — its value, or
`undefined` (`none`) when the task threw — for every `i` below the queue
length, and nothing beyond the queue length is touched.  In particular a
thrown task never prevents the others from being executed, and resolution
happens only after every task has settled into its slot. -/
theorem c8_fetchWithLimit_results (α : Type) (outcomes : List (Option α))
    (limit : Nat) (hC : 1 ≤ limit) (s : RunnerState α)
    (hr : RunnerReaches α outcomes (runnerInit α limit outcomes.length) s)
    (hdone : RunnerDone s) :
    (∀ i, i < outcomes.length → s.results i = some (outcomes.getD i none))
    ∧ (∀ i, outcomes.length ≤ i → s.results i = none) := by
  obtain ⟨h1, h2, h3, h4, h5, h6⟩ := runnerInv_reaches outcomes limit hC s hr
  have hfull : outcomes.length ≤ s.nextIdx := by
    rcases h6 with h | ⟨w, hw⟩
    · exact h
    · exact absurd (hdone w) hw
  refine ⟨?_, ?_⟩
  · intro i hi
    refine h5 i (by omega) ?_
    rintro ⟨w, hw⟩
    rw [hdone w] at hw
    cases hw
  · intro i hi
    exact h1 i (by omega)

/-- Witness for `c8_fetchWithLimit_results`: a one-task queue run by one
worker through claim, write and return. -/
theorem c8_fetchWithLimit_witness :
    1 ≤ 1
    ∧ (RunnerState.mk 1
        (updFn (fun _ => (none : Option (Option Nat))) 0 (some (some 42)))
        (updFn (updFn (updFn ((runnerInit Nat 1 1).workers)
          0 (Worker.awaiting 0)) 0 Worker.idle) 0 Worker.done)).results 0
      = some (some 42) := by
  refine ⟨le_refl 1, ?_⟩
  refine (c8_fetchWithLimit_results Nat [some 42] 1 (le_refl 1) _ ?_ ?_).1 0 (by decide)
  · exact Relation.ReflTransGen.tail
      (Relation.ReflTransGen.tail
        (Relation.ReflTransGen.tail Relation.ReflTransGen.refl
          (RunnerStep.claim _ 0 (by decide) (by decide)))
        (RunnerStep.write _ 0 0 (by decide)))
      (RunnerStep.finish _ 0 (by decide) (by decide))
  · intro w
    cases w with
    | zero => rfl
    | succ n => simp [updFn, runnerInit, Nat.lt_one_iff]

end LifeTimeline
